import Mathlib

/-!
Verification of the plan sequencer of `adapter/src/coord/sequencer.rs`:
a shallow embedding of `Coordinator::sequence_plan`, `send_diffs`,
`insert_constant`, `allocate_transient_id` and
`sequence_execute_single_statement_transaction`, together with theorems
about dispatch structure, diff accounting and the transaction and
cursor protocol arms.

Collaborator code that lives outside the excerpted sources (the
`Session` methods, `RelationDesc::constraints_met`,
`RowSetFinishing::finish`) is modelled from the specification document;
each such definition carries a doc comment saying so.
-/

/-- A single value of a row. The row and value encoding layer is an
external collaborator; for constraint checking only nullness and
equality and ordering of values matter, so a datum is either the null
datum or an integer payload. -/
inductive Datum where
  | null : Datum
  | int (n : Int) : Datum
deriving DecidableEq, Repr

/-- A row is a finite sequence of datums. -/
abbrev Row := List Datum

/-- Embedding of `mz_repr::GlobalId`: user, system or transient
catalog identifiers. -/
inductive GlobalId where
  | user (n : Nat) : GlobalId
  | system (n : Nat) : GlobalId
  | transient (n : Nat) : GlobalId
deriving DecidableEq, Repr

/-- Embedding of `mz_sql::plan::MutationKind`. -/
inductive MutationKind where
  | insert : MutationKind
  | update : MutationKind
  | delete : MutationKind
deriving DecidableEq, Repr

/-- The error variants of `AdapterError` that the sequencer constructs,
plus a catch-all constructor for errors produced by collaborator calls
whose internals are out of scope. -/
inductive AdapterError where
  | unknownCursor (name : String) : AdapterError
  | preparedStatementExists (name : String) : AdapterError
  | unknownPreparedStatement (name : String) : AdapterError
  | operationProhibitsTransaction (op : String) : AdapterError
  | sqlCatalogUnknownItem (id : GlobalId) : AdapterError
  | notNullViolation (column : String) : AdapterError
  | resultSize (msg : String) : AdapterError
  | internal (msg : String) : AdapterError
  | other (tag : Nat) : AdapterError
deriving DecidableEq, Repr

/-- The advisory notices that `sequence_plan` emits via
`Session::add_notice`. -/
inductive AdapterNotice where
  | existingTransactionInProgress : AdapterNotice
  | explicitTransactionControlInImplicitTransaction : AdapterNotice
  | userRequested (severity : Nat) : AdapterNotice
  | rbacSystemDisabled : AdapterNotice
  | rbacUserDisabled : AdapterNotice
deriving DecidableEq, Repr

/-- The `ExecuteResponse` variants the sequencer constructs directly,
plus a catch-all constructor for responses returned by inner handlers
whose internals are out of scope. `sendingRows` is the shape produced
by `Coordinator::send_immediate_rows`. -/
inductive ExecuteResponse where
  | emptyQuery : ExecuteResponse
  | startedTransaction : ExecuteResponse
  | discardedTemp : ExecuteResponse
  | discardedAll : ExecuteResponse
  | closedCursor : ExecuteResponse
  | preparedStatement : ExecuteResponse
  | deallocate (all : Bool) : ExecuteResponse
  | raised : ExecuteResponse
  | fetch (name : String) : ExecuteResponse
  | copyFrom : ExecuteResponse
  | alteredObject (ty : Nat) : ExecuteResponse
  | validatedConnection : ExecuteResponse
  | deleted (n : Nat) : ExecuteResponse
  | inserted (n : Nat) : ExecuteResponse
  | updated (n : Nat) : ExecuteResponse
  | sendingRows (rows : List Row) : ExecuteResponse
  | other (tag : Nat) : ExecuteResponse
deriving DecidableEq, Repr

/-- Modelled from the spec: the session transaction states of §4.2
(`Default`, `Started`, `InTransaction`, `Failed`), plus the
implicit-transaction variant `InTransactionImplicit` that the session
tracks for auto-wrapped statements. The sequencer source matches on
the variants `Default`, `Started(_)` and `InTransaction(_)` of
`TransactionStatus`. -/
inductive TransactionStatus where
  | default : TransactionStatus
  | started : TransactionStatus
  | inTransactionImplicit : TransactionStatus
  | inTransaction : TransactionStatus
  | failed : TransactionStatus
deriving DecidableEq, Repr

/-- Modelled from the spec: whether the active transaction is an
implicit (auto-wrapped) one rather than a user-issued
START TRANSACTION. -/
def TransactionStatus.is_implicit : TransactionStatus → Bool
  | .inTransactionImplicit => true
  | _ => false

/-- Embedding of `WriteOp`: a target relation identifier bound to a
list of (row, signed multiplicity) updates. -/
structure WriteOp where
  id : GlobalId
  rows : List (Row × Int)
deriving DecidableEq, Repr

/-- Modelled from the spec: the kinds of operation a transaction may
buffer. DML buffers `writes`; other transaction op kinds (peeks,
subscribes, DDL) are collapsed into `otherOps`, and `noOps` is the
empty buffer. -/
inductive TransactionOps where
  | noOps : TransactionOps
  | writes (ws : List WriteOp) : TransactionOps
  | otherOps : TransactionOps
deriving DecidableEq, Repr

/-- Modelled from the spec: per-connection session state — connection
identifier, transaction status, buffered transaction operations,
prepared statements (name to opaque statement payload), open portals
and session variables. -/
structure Session where
  conn_id : Nat
  txn : TransactionStatus
  ops : TransactionOps
  prepared : List (String × Nat)
  portals : List String
  vars : List (String × String)
deriving DecidableEq, Repr

/-- Modelled from the spec: the session variable defaults restored by
DISCARD ALL. -/
def defaultVars : List (String × String) := []

/-- Modelled from the spec: `Session::add_transaction_ops` appends a
WriteOp set to the session's pending writes; conflicting transaction
op kinds are rejected rather than merged. -/
def Session.add_transaction_ops (s : Session) (ops : TransactionOps) :
    Except AdapterError Session :=
  match ops with
  | .noOps => .ok s
  | .otherOps =>
    match s.ops with
    | .noOps => .ok { s with ops := .otherOps }
    | .otherOps => .ok s
    | .writes _ => .error (.other 0)
  | .writes ws =>
    match s.ops with
    | .noOps => .ok { s with ops := .writes ws }
    | .writes old => .ok { s with ops := .writes (old ++ ws) }
    | .otherOps => .error (.other 0)

/-- Order on datums used to sort change lists before consolidation
(the source sorts rows with `Ord::cmp` on the row encoding; any total
order on rows gives the same consolidated multiset). -/
def datumLeB : Datum → Datum → Bool
  | .null, _ => true
  | .int _, .null => false
  | .int a, .int b => a ≤ b

/-- Lexicographic order on rows induced by `datumLeB`. -/
def rowLeB : Row → Row → Bool
  | [], _ => true
  | _ :: _, [] => false
  | a :: as, b :: bs => if a = b then rowLeB as bs else datumLeB a b

/-- The sort relation on (row, diff) pairs: compare by row only. -/
def updLe (p q : Row × Int) : Prop := rowLeB p.1 q.1 = true

instance : DecidableRel updLe := fun p q => by
  unfold updLe; infer_instance

/-- Merging pass of `differential_dataflow::consolidation::consolidate`
on a sorted change list: sum the multiplicities of runs of equal rows.
The pair `(r, d)` is the run currently being accumulated. -/
def sumRunsAux (r : Row) (d : Int) : List (Row × Int) → List (Row × Int)
  | [] => [(r, d)]
  | (r2, d2) :: rest =>
    if r = r2 then sumRunsAux r (d + d2) rest
    else (r, d) :: sumRunsAux r2 d2 rest

/-- Merge runs of equal rows of a change list, summing multiplicities. -/
def sumRuns : List (Row × Int) → List (Row × Int)
  | [] => []
  | (r, d) :: rest => sumRunsAux r d rest

/-- Embedding of `differential_dataflow::consolidation::consolidate`:
sort the change list by row, sum the multiplicities of equal rows, and
drop rows whose summed multiplicity is zero. -/
def consolidate (l : List (Row × Int)) : List (Row × Int) :=
  (sumRuns (List.insertionSort updLe l)).filter (fun p => !(p.2 == 0))

/-- The total multiplicity a change list assigns to one row. -/
def rowMultiplicity (r : Row) (l : List (Row × Int)) : Int :=
  ((l.filter (fun p => p.1 == r)).map Prod.snd).sum

/-- The first loop of `send_diffs`: walk the unconsolidated updates
summing the diffs, stopping with `none` as soon as a negative diff is
seen (`all_positive_diffs = false`). -/
def sumIfAllPositive : List (Row × Int) → Option Int
  | [] => some 0
  | (_, d) :: rest =>
    if d < 0 then none else (sumIfAllPositive rest).map (· + d)

/-- The affected-row computation of `send_diffs`, returning both the
affected-row count and the update list actually used afterwards (the
source consolidates `plan.updates` in place when a negative diff is
present): if every diff is non-negative the count is the plain sum
over the unconsolidated list, otherwise the list is consolidated and
the count is the sum of the absolute values of its diffs. -/
def affectedAndUpdates (updates : List (Row × Int)) :
    Int × List (Row × Int) :=
  match sumIfAllPositive updates with
  | some s => (s, updates)
  | none =>
    let upd := consolidate updates
    (((upd.map (fun p => (p.2.natAbs : Int))).sum), upd)

/-- The affected-row count computed by `send_diffs`. -/
def affectedRowsDiff (updates : List (Row × Int)) : Int :=
  (affectedAndUpdates updates).1

/-- Modelled from the spec: `RowSetFinishing` — the requested ordering
(column indices compared lexicographically), limit, offset and column
projection applied to a result set. -/
structure RowSetFinishing where
  order_by : List Nat
  limit : Option Nat
  offset : Nat
  project : List Nat
deriving DecidableEq, Repr

/-- Row comparison by the datums in the `order_by` columns, in order. -/
def orderByLeB (cols : List Nat) (r1 r2 : Row) : Bool :=
  rowLeB (cols.filterMap (fun i => r1.get? i)) (cols.filterMap (fun i => r2.get? i))

/-- The sort relation requested by a finishing. -/
def finLe (cols : List Nat) (r1 r2 : Row) : Prop := orderByLeB cols r1 r2 = true

instance (cols : List Nat) : DecidableRel (finLe cols) := fun p q => by
  unfold finLe; infer_instance

/-- Modelled from the spec: the byte-size measure of a returned row
used against the configured maximum result size; modelled as the
number of datums of the row. -/
def rowSizeBytes (r : Row) : Nat := r.length

/-- Modelled from the spec: `RowSetFinishing::finish` — result-set
finishing with ordering, offset, limit and projection exactly as the
finishing requests, with multiplicities expanded into repeated rows,
and a distinct error (no truncation) when the finished result exceeds
the configured maximum result size. -/
def RowSetFinishing.finish (f : RowSetFinishing) (rows : List (Row × Nat))
    (max_result_size : Nat) : Except String (List Row) :=
  let expanded := rows.flatMap (fun p => List.replicate p.2 p.1)
  let sorted := List.insertionSort (finLe f.order_by) expanded
  let sliced :=
    match f.limit with
    | none => sorted.drop f.offset
    | some l => (sorted.drop f.offset).take l
  let projected := sliced.map (fun r => f.project.filterMap (fun i => r.get? i))
  if (projected.map rowSizeBytes).sum ≤ max_result_size then .ok projected
  else .error "result exceeds max size"

/-- Embedding of `mz_sql::plan::SendDiffsPlan`. The multiplicities of
`returning` rows are `NonZeroUsize` in the source, modelled as `Nat`. -/
structure SendDiffsPlan where
  id : GlobalId
  updates : List (Row × Int)
  kind : MutationKind
  returning : List (Row × Nat)
  max_result_size : Nat
deriving DecidableEq, Repr

/-- Embedding of `Coordinator::send_immediate_rows`. -/
def send_immediate_rows (rows : List Row) : ExecuteResponse :=
  .sendingRows rows

/-- The fixed finishing that `send_diffs` constructs for RETURNING:
no ordering, no limit, zero offset, and a projection of every column
of the first returning row (`0..plan.returning[0].0.iter().count()`). -/
def returningFinishing (returning : List (Row × Nat)) : RowSetFinishing :=
  { order_by := []
    limit := none
    offset := 0
    project := List.range (match returning with | [] => 0 | (r, _) :: _ => r.length) }

/-- Embedding of `Coordinator::send_diffs`: compute the affected-row
count (consolidating `plan.updates` in place when a retraction is
present), buffer the resulting update list as a `WriteOp` on the
session, then either finish the `returning` rows into an immediate row
response, or report a mutation-kind-specific row count (halved for
updates). -/
def send_diffs (s : Session) (plan : SendDiffsPlan) :
    Except AdapterError ExecuteResponse × Session :=
  match s.add_transaction_ops
      (.writes [{ id := plan.id, rows := (affectedAndUpdates plan.updates).2 }]) with
  | .error e => (.error e, s)
  | .ok s2 =>
    if plan.returning.isEmpty then
      (.ok (match plan.kind with
        | .delete => .deleted (affectedRowsDiff plan.updates).toNat
        | .insert => .inserted (affectedRowsDiff plan.updates).toNat
        | .update => .updated ((affectedRowsDiff plan.updates).toNat / 2)), s2)
    else
      match (returningFinishing plan.returning).finish plan.returning
          plan.max_result_size with
      | .ok rows => (.ok (send_immediate_rows rows), s2)
      | .error e => (.error (.resultSize e), s2)

theorem datumLeB_total (a b : Datum) : datumLeB a b = true ∨ datumLeB b a = true := by
  cases a <;> cases b <;> simp [datumLeB] <;> omega

theorem datumLeB_trans {a b c : Datum} (h1 : datumLeB a b = true)
    (h2 : datumLeB b c = true) : datumLeB a c = true := by
  cases a <;> cases b <;> cases c <;> simp_all [datumLeB] <;> omega

theorem datumLeB_antisymm {a b : Datum} (h1 : datumLeB a b = true)
    (h2 : datumLeB b a = true) : a = b := by
  cases a <;> cases b <;> simp_all [datumLeB] <;> omega

theorem rowLeB_total (x : Row) : ∀ y, rowLeB x y = true ∨ rowLeB y x = true := by
  induction x with
  | nil => intro y; left; cases y <;> rfl
  | cons a as ih =>
    intro y
    cases y with
    | nil => right; rfl
    | cons b bs =>
      by_cases hab : a = b
      · subst hab
        simp only [rowLeB, if_pos rfl]
        exact ih bs
      · simp only [rowLeB, if_neg hab, if_neg (Ne.symm hab)]
        exact datumLeB_total a b

theorem rowLeB_trans {x y z : Row} (h1 : rowLeB x y = true)
    (h2 : rowLeB y z = true) : rowLeB x z = true := by
  induction x generalizing y z with
  | nil => cases z <;> rfl
  | cons a as ih =>
    cases y with
    | nil => simp [rowLeB] at h1
    | cons b bs =>
      cases z with
      | nil => simp [rowLeB] at h2
      | cons c cs =>
        simp only [rowLeB] at h1 h2 ⊢
        by_cases hab : a = b <;> by_cases hbc : b = c
        · subst hab; subst hbc
          simp only [if_pos rfl] at h1 h2 ⊢
          exact ih h1 h2
        · subst hab
          rw [if_pos rfl] at h1
          rw [if_neg hbc] at h2
          rw [if_neg hbc]
          exact h2
        · subst hbc
          rw [if_neg hab] at h1
          rw [if_pos rfl] at h2
          rw [if_neg hab]
          exact h1
        · rw [if_neg hab] at h1
          rw [if_neg hbc] at h2
          have hac : a ≠ c := by
            intro h
            subst h
            exact hab (datumLeB_antisymm h1 h2)
          rw [if_neg hac]
          exact datumLeB_trans h1 h2

theorem rowLeB_antisymm {x y : Row} (h1 : rowLeB x y = true)
    (h2 : rowLeB y x = true) : x = y := by
  induction x generalizing y with
  | nil =>
    cases y with
    | nil => rfl
    | cons b bs => simp [rowLeB] at h2
  | cons a as ih =>
    cases y with
    | nil => simp [rowLeB] at h1
    | cons b bs =>
      simp only [rowLeB] at h1 h2
      by_cases hab : a = b
      · subst hab
        rw [if_pos rfl] at h1 h2
        rw [ih h1 h2]
      · rw [if_neg hab] at h1
        rw [if_neg (Ne.symm hab)] at h2
        exact absurd (datumLeB_antisymm h1 h2) hab

instance : IsTotal (Row × Int) updLe :=
  ⟨fun p q => rowLeB_total p.1 q.1⟩

instance : IsTrans (Row × Int) updLe :=
  ⟨fun _ _ _ h1 h2 => rowLeB_trans h1 h2⟩

theorem rowMultiplicity_nil (x : Row) : rowMultiplicity x [] = 0 := rfl

theorem rowMultiplicity_cons (x a : Row) (b : Int) (t : List (Row × Int)) :
    rowMultiplicity x ((a, b) :: t) =
      (if a = x then b else 0) + rowMultiplicity x t := by
  by_cases h : a = x <;>
    simp [rowMultiplicity, List.filter_cons, h]

theorem rowMultiplicity_perm {l1 l2 : List (Row × Int)} (h : l1.Perm l2)
    (x : Row) : rowMultiplicity x l1 = rowMultiplicity x l2 := by
  unfold rowMultiplicity
  exact List.Perm.sum_eq (List.Perm.map _ (List.Perm.filter _ h))

theorem sumRunsAux_mult (l : List (Row × Int)) :
    ∀ (r : Row) (d : Int) (x : Row),
      rowMultiplicity x (sumRunsAux r d l) =
        (if r = x then d else 0) + rowMultiplicity x l := by
  induction l with
  | nil =>
    intro r d x
    simp [sumRunsAux, rowMultiplicity_cons, rowMultiplicity_nil]
  | cons p rest ih =>
    intro r d x
    obtain ⟨r2, d2⟩ := p
    by_cases h : r = r2
    · subst h
      have hstep : sumRunsAux r d ((r, d2) :: rest) = sumRunsAux r (d + d2) rest := by
        simp [sumRunsAux]
      rw [hstep, ih, rowMultiplicity_cons]
      by_cases hx : r = x <;> simp [hx] <;> ring
    · simp only [sumRunsAux, if_neg h]
      rw [rowMultiplicity_cons, ih, rowMultiplicity_cons]

theorem sumRuns_mult (l : List (Row × Int)) (x : Row) :
    rowMultiplicity x (sumRuns l) = rowMultiplicity x l := by
  cases l with
  | nil => rfl
  | cons p rest =>
    obtain ⟨r, d⟩ := p
    simp [sumRuns, sumRunsAux_mult, rowMultiplicity_cons]

theorem filter_nonzero_mult (l : List (Row × Int)) (x : Row) :
    rowMultiplicity x (l.filter (fun p => !(p.2 == 0))) = rowMultiplicity x l := by
  induction l with
  | nil => rfl
  | cons p rest ih =>
    obtain ⟨a, b⟩ := p
    by_cases hb : b = 0
    · subst hb
      simp only [List.filter_cons]
      simpa [rowMultiplicity_cons] using ih
    · simp only [List.filter_cons]
      simp only [show (!((a, b).2 == 0)) = true by simpa using hb, if_pos]
      rw [rowMultiplicity_cons, rowMultiplicity_cons, ih]

theorem sumRunsAux_keys (l : List (Row × Int)) :
    ∀ (r : Row) (d : Int) (q : Row × Int), q ∈ sumRunsAux r d l →
      q.1 = r ∨ q.1 ∈ l.map Prod.fst := by
  induction l with
  | nil =>
    intro r d q hq
    simp only [sumRunsAux, List.mem_singleton] at hq
    subst hq
    exact Or.inl rfl
  | cons p rest ih =>
    intro r d q hq
    obtain ⟨r2, d2⟩ := p
    by_cases h : r = r2
    · subst h
      have hstep : sumRunsAux r d ((r, d2) :: rest) = sumRunsAux r (d + d2) rest := by
        simp [sumRunsAux]
      rw [hstep] at hq
      rcases ih r (d + d2) q hq with h1 | h1
      · exact Or.inl h1
      · exact Or.inr (by simp [h1])
    · simp only [sumRunsAux, if_neg h, List.mem_cons] at hq
      rcases hq with h1 | h1
      · subst h1; exact Or.inl rfl
      · rcases ih r2 d2 q h1 with h2 | h2
        · exact Or.inr (by simp [h2])
        · exact Or.inr (by simp [h2])

/-- The strict version of the sort relation: related keys that are
distinct. -/
def updNe (p q : Row × Int) : Prop := updLe p q ∧ p.1 ≠ q.1

theorem sumRunsAux_pairwise (l : List (Row × Int)) :
    ∀ (r : Row) (d : Int), List.Pairwise updLe ((r, d) :: l) →
      List.Pairwise updNe (sumRunsAux r d l) := by
  induction l with
  | nil =>
    intro r d _
    simp [sumRunsAux]
  | cons p rest ih =>
    intro r d hp
    obtain ⟨r2, d2⟩ := p
    rw [List.pairwise_cons] at hp
    obtain ⟨hhead, htail⟩ := hp
    by_cases h : r = r2
    · subst h
      have hstep : sumRunsAux r d ((r, d2) :: rest) = sumRunsAux r (d + d2) rest := by
        simp [sumRunsAux]
      rw [hstep]
      apply ih r (d + d2)
      rw [List.pairwise_cons] at htail ⊢
      exact ⟨fun b hb => htail.1 b hb, htail.2⟩
    · simp only [sumRunsAux, if_neg h]
      rw [List.pairwise_cons]
      refine ⟨?_, ih r2 d2 htail⟩
      intro q hq
      rw [List.pairwise_cons] at htail
      obtain ⟨hhead2, _⟩ := htail
      have hle_r2 : updLe (r, d) (r2, d2) := hhead (r2, d2) (by simp)
      rcases sumRunsAux_keys rest r2 d2 q hq with hk | hk
      · refine ⟨?_, ?_⟩
        · show rowLeB r q.1 = true
          rw [hk]
          exact hle_r2
        · rw [hk]; exact h
      · obtain ⟨p2, hp2mem, hp2eq⟩ := List.mem_map.mp hk
        have hle_p2 : updLe (r, d) p2 := hhead p2 (by simp [hp2mem])
        have hle2_p2 : updLe (r2, d2) p2 := hhead2 p2 hp2mem
        refine ⟨?_, ?_⟩
        · show rowLeB r q.1 = true
          rw [← hp2eq]
          exact hle_p2
        · intro hcontra
          apply h
          apply rowLeB_antisymm hle_r2
          show rowLeB r2 r = true
          have : rowLeB r2 p2.1 = true := hle2_p2
          rw [hp2eq, ← hcontra] at this
          exact this

theorem sumRuns_pairwise (l : List (Row × Int))
    (h : List.Pairwise updLe l) : List.Pairwise updNe (sumRuns l) := by
  cases l with
  | nil => simp [sumRuns]
  | cons p rest =>
    obtain ⟨r, d⟩ := p
    exact sumRunsAux_pairwise rest r d h

theorem consolidate_mult (l : List (Row × Int)) (x : Row) :
    rowMultiplicity x (consolidate l) = rowMultiplicity x l := by
  unfold consolidate
  rw [filter_nonzero_mult, sumRuns_mult]
  exact rowMultiplicity_perm (List.perm_insertionSort updLe l) x

theorem consolidate_nonzero (l : List (Row × Int)) :
    ∀ p ∈ consolidate l, p.2 ≠ 0 := by
  intro p hp
  unfold consolidate at hp
  have := List.of_mem_filter hp
  simpa using this

theorem consolidate_keys_nodup (l : List (Row × Int)) :
    ((consolidate l).map Prod.fst).Nodup := by
  have hsorted : List.Pairwise updLe (List.insertionSort updLe l) :=
    List.sorted_insertionSort updLe l
  have hpw : List.Pairwise updNe (sumRuns (List.insertionSort updLe l)) :=
    sumRuns_pairwise _ hsorted
  have hpwf : List.Pairwise updNe (consolidate l) :=
    List.Pairwise.filter _ hpw
  have : List.Pairwise (fun p q : Row × Int => p.1 ≠ q.1) (consolidate l) :=
    hpwf.imp (fun h => h.2)
  exact List.pairwise_map.mpr this

theorem sumIfAllPositive_of_nonneg (l : List (Row × Int))
    (h : ∀ p ∈ l, 0 ≤ p.2) :
    sumIfAllPositive l = some ((l.map Prod.snd).sum) := by
  induction l with
  | nil => rfl
  | cons p rest ih =>
    obtain ⟨a, b⟩ := p
    have hb : ¬(b < 0) := not_lt.mpr (h (a, b) (by simp))
    have hrest := ih (fun q hq => h q (by simp [hq]))
    simp only [sumIfAllPositive, if_neg hb, hrest]
    simp [Int.add_comm]

theorem sumIfAllPositive_of_neg (l : List (Row × Int))
    (h : ∃ p ∈ l, p.2 < 0) : sumIfAllPositive l = none := by
  induction l with
  | nil => simp at h
  | cons p rest ih =>
    obtain ⟨a, b⟩ := p
    by_cases hb : b < 0
    · simp [sumIfAllPositive, hb]
    · obtain ⟨q, hq, hqneg⟩ := h
      rcases List.mem_cons.mp hq with h1 | h1
      · subst h1; exact absurd hqneg hb
      · simp [sumIfAllPositive, hb, ih ⟨q, h1, hqneg⟩]

theorem affectedRowsDiff_of_nonneg (l : List (Row × Int))
    (h : ∀ p ∈ l, 0 ≤ p.2) : affectedRowsDiff l = (l.map Prod.snd).sum := by
  unfold affectedRowsDiff affectedAndUpdates
  rw [sumIfAllPositive_of_nonneg l h]

theorem affectedRowsDiff_of_neg (l : List (Row × Int))
    (h : ∃ p ∈ l, p.2 < 0) :
    affectedRowsDiff l = ((consolidate l).map (fun p => (p.2.natAbs : Int))).sum := by
  unfold affectedRowsDiff affectedAndUpdates
  rw [sumIfAllPositive_of_neg l h]

theorem send_diffs_add_ops_error (s : Session) (plan : SendDiffsPlan)
    (e : AdapterError)
    (hadd : s.add_transaction_ops
      (.writes [{ id := plan.id, rows := (affectedAndUpdates plan.updates).2 }])
      = .error e) :
    send_diffs s plan = (.error e, s) := by
  unfold send_diffs
  rw [hadd]

theorem send_diffs_empty_returning (s s2 : Session) (plan : SendDiffsPlan)
    (hret : plan.returning = [])
    (hadd : s.add_transaction_ops
      (.writes [{ id := plan.id, rows := (affectedAndUpdates plan.updates).2 }])
      = .ok s2) :
    send_diffs s plan =
      (.ok (match plan.kind with
        | .delete => .deleted (affectedRowsDiff plan.updates).toNat
        | .insert => .inserted (affectedRowsDiff plan.updates).toNat
        | .update => .updated ((affectedRowsDiff plan.updates).toNat / 2)), s2) := by
  unfold send_diffs
  rw [hadd, hret]
  rfl

theorem send_diffs_with_returning (s s2 : Session) (plan : SendDiffsPlan)
    (hret : plan.returning ≠ [])
    (hadd : s.add_transaction_ops
      (.writes [{ id := plan.id, rows := (affectedAndUpdates plan.updates).2 }])
      = .ok s2) :
    send_diffs s plan =
      (match (returningFinishing plan.returning).finish plan.returning
          plan.max_result_size with
        | .ok rows => (.ok (send_immediate_rows rows), s2)
        | .error e => (.error (.resultSize e), s2)) := by
  unfold send_diffs
  rw [hadd]
  have hne : plan.returning.isEmpty = false := by
    rw [Bool.eq_false_iff]
    intro hcontra
    exact hret (List.isEmpty_iff.mp hcontra)
  simp [hne]

/-- Claim C2: for every update list given to `send_diffs`, if every
multiplicity is non-negative the reported affected-row count is the
sum of the multiplicities without consolidation; if any multiplicity
is negative the list is first consolidated (equal rows' multiplicities
summed — the total multiplicity of every row is preserved, no
zero-sum row survives, and no row appears twice — ) and the count is
the sum of the absolute values of the consolidated multiplicities;
that count is what an insert with no RETURNING reports. -/
theorem send_diffs_affected_row_accounting (updates : List (Row × Int)) :
    ((∀ p ∈ updates, 0 ≤ p.2) →
      affectedRowsDiff updates = (updates.map Prod.snd).sum)
    ∧ ((∃ p ∈ updates, p.2 < 0) →
      affectedRowsDiff updates
          = ((consolidate updates).map (fun p => (p.2.natAbs : Int))).sum
        ∧ (∀ x, rowMultiplicity x (consolidate updates) = rowMultiplicity x updates)
        ∧ (∀ p ∈ consolidate updates, p.2 ≠ 0)
        ∧ ((consolidate updates).map Prod.fst).Nodup)
    ∧ (∀ (s s2 : Session) (plan : SendDiffsPlan) (r : ExecuteResponse),
        plan.updates = updates → plan.kind = .insert → plan.returning = [] →
        send_diffs s plan = (.ok r, s2) →
        r = .inserted (affectedRowsDiff updates).toNat) := by
  refine ⟨affectedRowsDiff_of_nonneg updates, ?_, ?_⟩
  · intro hneg
    exact ⟨affectedRowsDiff_of_neg updates hneg,
      fun x => consolidate_mult updates x,
      consolidate_nonzero updates,
      consolidate_keys_nodup updates⟩
  · intro s s2 plan r hupd hkind hret hsd
    cases hadd : s.add_transaction_ops
        (.writes [{ id := plan.id, rows := (affectedAndUpdates plan.updates).2 }]) with
    | error e =>
      rw [send_diffs_add_ops_error s plan e hadd] at hsd
      exact absurd (congrArg Prod.fst hsd) (by simp)
    | ok s3 =>
      rw [send_diffs_empty_returning s s3 plan hret hadd, hkind] at hsd
      have := congrArg Prod.fst hsd
      simp only at this
      rw [← hupd]
      exact (Except.ok.injEq _ _).mp this.symm ▸ rfl

/-- A fresh session outside any transaction with no buffered state. -/
def sFresh : Session :=
  { conn_id := 0, txn := .default, ops := .noOps, prepared := [], portals := [],
    vars := [] }

/-- A change list whose multiplicities are all non-negative. -/
def uPos : List (Row × Int) := [([Datum.int 0], 1), ([Datum.int 1], 2)]

/-- A change list containing a retraction that cancels an insertion. -/
def uNeg : List (Row × Int) :=
  [([Datum.int 0], 1), ([Datum.int 0], -1), ([Datum.int 1], 1)]

/-- A concrete insert plan with no RETURNING clause. -/
def planIns : SendDiffsPlan :=
  { id := .user 1, updates := uPos, kind := .insert, returning := [],
    max_result_size := 100 }

/-- The session after `send_diffs sFresh planIns` buffers its WriteOp. -/
def sAfterIns : Session :=
  { sFresh with ops := .writes [{ id := .user 1, rows := uPos }] }

theorem send_diffs_affected_row_accounting_witness :
    ((∀ p ∈ uPos, 0 ≤ p.2) ∧ affectedRowsDiff uPos = (uPos.map Prod.snd).sum)
    ∧ ((∃ p ∈ uNeg, p.2 < 0) ∧ affectedRowsDiff uNeg
        = ((consolidate uNeg).map (fun p => (p.2.natAbs : Int))).sum)
    ∧ (send_diffs sFresh planIns = (.ok (.inserted 3), sAfterIns)
        ∧ ExecuteResponse.inserted 3 = .inserted (affectedRowsDiff uPos).toNat) :=
  ⟨⟨by decide, (send_diffs_affected_row_accounting uPos).1 (by decide)⟩,
   ⟨by decide, ((send_diffs_affected_row_accounting uNeg).2.1 (by decide)).1⟩,
   ⟨rfl, (send_diffs_affected_row_accounting uPos).2.2 sFresh sAfterIns planIns
      (.inserted 3) rfl rfl rfl rfl⟩⟩

/-- Claim C10: for every `send_diffs` call with `MutationKind::Update`
and an empty returning set, the reported response is
`Updated(affected_rows / 2)` — the computed affected-row count is
integer-halved before being reported — whereas Insert and Delete
report the computed count unhalved. -/
theorem send_diffs_update_reports_halved (s s2 : Session) (plan : SendDiffsPlan)
    (r : ExecuteResponse) (hret : plan.returning = [])
    (hsd : send_diffs s plan = (.ok r, s2)) :
    (plan.kind = .update → r = .updated ((affectedRowsDiff plan.updates).toNat / 2))
    ∧ (plan.kind = .insert → r = .inserted (affectedRowsDiff plan.updates).toNat)
    ∧ (plan.kind = .delete → r = .deleted (affectedRowsDiff plan.updates).toNat) := by
  cases hadd : s.add_transaction_ops
      (.writes [{ id := plan.id, rows := (affectedAndUpdates plan.updates).2 }]) with
  | error e =>
    rw [send_diffs_add_ops_error s plan e hadd] at hsd
    exact absurd (congrArg Prod.fst hsd) (by simp)
  | ok s3 =>
    rw [send_diffs_empty_returning s s3 plan hret hadd] at hsd
    have hr := congrArg Prod.fst hsd
    simp only at hr
    have hr2 := (Except.ok.injEq _ _).mp hr
    refine ⟨?_, ?_, ?_⟩ <;> intro hk <;> rw [hk] at hr2 <;> exact hr2.symm

/-- A concrete update plan whose change list holds one retraction and
one insertion of a different row. -/
def planUpd : SendDiffsPlan :=
  { id := .user 1, updates := [([Datum.int 0], -1), ([Datum.int 1], 1)],
    kind := .update, returning := [], max_result_size := 100 }

/-- The session after `send_diffs sFresh planUpd` buffers the
consolidated WriteOp. -/
def sAfterUpd : Session :=
  { sFresh with
    ops := .writes [{ id := .user 1, rows := [([Datum.int 0], -1), ([Datum.int 1], 1)] }] }

theorem send_diffs_update_reports_halved_witness :
    planUpd.returning = []
    ∧ send_diffs sFresh planUpd = (.ok (.updated 1), sAfterUpd)
    ∧ ExecuteResponse.updated 1
        = .updated ((affectedRowsDiff planUpd.updates).toNat / 2) :=
  ⟨rfl, rfl,
   (send_diffs_update_reports_halved sFresh sAfterUpd planUpd (.updated 1)
     rfl rfl).1 rfl⟩

/-- Claim C4 (amended): when a `SendDiffsPlan` has a non-empty
returning set, `send_diffs` returns an immediate row response (not a
row-count response) obtained by finishing the plan's `returning` rows
— not the consolidated change set — with one fixed finishing: no
ordering, no limit, zero offset, and a projection of every column of
the first returning row (the plan itself carries no finishing); if the
finished result exceeds the configured maximum result size, a distinct
result-size error is returned rather than a silent truncation. -/
theorem send_diffs_returning_immediate_rows (s s2 : Session)
    (plan : SendDiffsPlan) (hret : plan.returning ≠ [])
    (hadd : s.add_transaction_ops
      (.writes [{ id := plan.id, rows := (affectedAndUpdates plan.updates).2 }])
      = .ok s2) :
    send_diffs s plan =
      (match (returningFinishing plan.returning).finish plan.returning
          plan.max_result_size with
        | .ok rows => (.ok (send_immediate_rows rows), s2)
        | .error e => (.error (.resultSize e), s2))
    ∧ (returningFinishing plan.returning).order_by = []
    ∧ (returningFinishing plan.returning).limit = none
    ∧ (returningFinishing plan.returning).offset = 0
    ∧ (returningFinishing plan.returning).project
        = List.range (match plan.returning with | [] => 0 | (r, _) :: _ => r.length) :=
  ⟨send_diffs_with_returning s s2 plan hret hadd, rfl, rfl, rfl, rfl⟩

/-- A concrete insert plan whose RETURNING rows differ from its change
list. -/
def planC4 : SendDiffsPlan :=
  { id := .user 1, updates := [([Datum.int 0], 1)], kind := .insert,
    returning := [([Datum.int 7], 1)], max_result_size := 1000 }

/-- The session after `send_diffs sFresh planC4` buffers its WriteOp. -/
def sAfterC4 : Session :=
  { sFresh with ops := .writes [{ id := .user 1, rows := [([Datum.int 0], 1)] }] }

theorem send_diffs_returning_immediate_rows_witness :
    planC4.returning ≠ []
    ∧ (send_diffs sFresh planC4 =
        (match (returningFinishing planC4.returning).finish planC4.returning
            planC4.max_result_size with
          | .ok rows => (.ok (send_immediate_rows rows), sAfterC4)
          | .error e => (.error (.resultSize e), sAfterC4))
      ∧ (returningFinishing planC4.returning).order_by = []
      ∧ (returningFinishing planC4.returning).limit = none
      ∧ (returningFinishing planC4.returning).offset = 0
      ∧ (returningFinishing planC4.returning).project
          = List.range (match planC4.returning with | [] => 0 | (r, _) :: _ => r.length)) :=
  ⟨by decide,
   send_diffs_returning_immediate_rows sFresh sAfterC4 planC4 (by decide) rfl⟩

/-- Claim C4 is false as stated: `send_diffs` finishes the plan's
`returning` rows, not the consolidated change set. Here the change
list consolidates to the single row `[0]`, finishing which yields the
row set containing `[0]`, yet the response delivered carries the
RETURNING row `[7]`. -/
theorem send_diffs_returning_counterexample :
    (send_diffs sFresh planC4).1 = .ok (.sendingRows [[Datum.int 7]])
    ∧ (returningFinishing planC4.returning).finish
        ((consolidate planC4.updates).map (fun p => (p.1, p.2.natAbs)))
        planC4.max_result_size = .ok [[Datum.int 0]]
    ∧ ExecuteResponse.sendingRows [[Datum.int 7]]
        ≠ .sendingRows [[Datum.int 0]] :=
  ⟨rfl, rfl, by decide⟩

/-- Modelled from the spec: `Session::remove_portal` removes the named
portal, reporting whether it existed; an unknown name leaves the
session untouched. -/
def Session.remove_portal (s : Session) (name : String) : Bool × Session :=
  if s.portals.contains name then
    (true, { s with portals := s.portals.filter (fun n => !(n == name)) })
  else (false, s)

/-- Modelled from the spec: look up a prepared statement by name
without a catalog-revision check. -/
def Session.get_prepared_statement_unverified (s : Session) (name : String) :
    Option Nat :=
  s.prepared.lookup name

/-- Modelled from the spec: register a prepared statement under a
name. -/
def Session.set_prepared_statement (s : Session) (name : String) (stmt : Nat) :
    Session :=
  { s with prepared := s.prepared ++ [(name, stmt)] }

/-- Modelled from the spec: `Session::remove_prepared_statement`
removes the named prepared statement, reporting whether it existed; an
unknown name leaves the session untouched. -/
def Session.remove_prepared_statement (s : Session) (name : String) :
    Bool × Session :=
  if (s.prepared.map Prod.fst).contains name then
    (true, { s with prepared := s.prepared.filter (fun p => !(p.1 == name)) })
  else (false, s)

/-- Modelled from the spec: `Session::remove_all_prepared_statements`
drops every prepared statement unconditionally. -/
def Session.remove_all_prepared_statements (s : Session) : Session :=
  { s with prepared := [] }

/-- Modelled from the spec: `Session::reset` restores all session
variables to their defaults. -/
def Session.reset (s : Session) : Session :=
  { s with vars := defaultVars }

/-- Modelled from the spec: `Session::start_transaction` records the
requested access mode and isolation level and never fails; from
`Default` it opens a transaction (`Default → Started`), and inside any
transaction it proceeds, reusing and updating the active
transaction. -/
def Session.start_transaction (s : Session) :
    Except AdapterError Unit × Session :=
  match s.txn with
  | .default => (.ok (), { s with txn := .started })
  | _ => (.ok (), s)

/-- Modelled from the spec: `Coordinator::clear_transaction` clears
the buffered transaction operations and returns the session to
`Default`. -/
def Session.clear_transaction (s : Session) : Session :=
  { s with txn := .default, ops := .noOps }

/-- Embedding of `EndTransactionAction`. -/
inductive EndTransactionAction where
  | commit : EndTransactionAction
  | rollback : EndTransactionAction
deriving DecidableEq, Repr

/-- The deferred continuations a dispatch arm may hand the
ExecuteContext (or its transmitter) to; each continuation owns the
context afterwards and is responsible for retiring it exactly once. -/
inductive Handoff where
  | createConnection : Handoff
  | createSink : Handoff
  | endTransaction (action : EndTransactionAction) : Handoff
  | peek : Handoff
  | explainPlan : Handoff
  | explainTimestamp : Handoff
  | insertPlan : Handoff
  | readThenWrite : Handoff
  | declarePlan (name : String) : Handoff
  | executeMessage (portal : String) : Handoff
  | validateConnection : Handoff
deriving DecidableEq, Repr

/-- A terminal touch of the ExecuteContext during one dispatch:
retiring it with a result, sending a response directly through its
transmitter (the `CopyFrom` arm), or handing it to a continuation. -/
inductive CtxAction where
  | retire (r : Except AdapterError ExecuteResponse) : CtxAction
  | send (r : Except AdapterError ExecuteResponse) : CtxAction
  | handoff (h : Handoff) : CtxAction

/-- Coordinator-level side effects performed by dispatch arms. -/
inductive CoordEffect where
  | dropTempItems (conn : Nat) : CoordEffect
deriving DecidableEq, Repr

/-- The observable outcome of sequencing one plan: the terminal
context actions in order, the notices emitted, the coordinator
effects, the resulting session, and whether the arm panicked
(`unreachable!` or a failed assertion). -/
structure SeqResult where
  actions : List CtxAction
  notices : List AdapterNotice
  effects : List CoordEffect
  session : Session
  panicked : Bool

/-- The empty outcome over a session: no action, notice or effect. -/
def SeqResult.base (s : Session) : SeqResult :=
  { actions := [], notices := [], effects := [], session := s, panicked := false }

/-- An outcome that only retires the context with the given result. -/
def retireWith (s : Session) (r : Except AdapterError ExecuteResponse) : SeqResult :=
  { SeqResult.base s with actions := [.retire r] }

/-- The inner `sequence_X` handlers that dispatch arms call and whose
result they retire directly; their internals are out of scope, so
their results are supplied by an oracle. -/
inductive InnerCall where
  | createSource | createDatabase | createSchema | createRole | createCluster
  | createClusterProfile | createClusterReplica | createTable | createSecret
  | createView | createMaterializedView | createIndex | createType
  | dropObjects | dropOwned | showAllVariables | showVariable | inspectShard
  | setVariable | resetVariable | setTransaction | subscribePlan
  | sideEffectingFunc | alterCluster | alterClusterProfile | alterClusterRename
  | alterClusterReplicaRename | alterSetCluster | alterItemRename
  | alterIndexSetOptions | alterIndexResetOptions | alterRole | alterSecret
  | alterSink | alterSource | alterSystemSet | alterSystemReset
  | alterSystemResetAll | rotateKeys | grantPrivileges | revokePrivileges
  | alterDefaultPrivileges | grantRole | revokeRole | alterOwner | reassignOwned
deriving DecidableEq, Repr

/-- Oracle for the authorization gate of `sequence_plan`: each check
either passes (`none`) or fails with a terminal error. -/
structure Auth where
  user_privilege_hack : Option AdapterError
  check_cluster_restrictions : Option AdapterError
  check_plan : Option AdapterError

/-- Oracle for the collaborator calls made by dispatch arms:
`Catalog::allocate_user_id`, the inner handler results, the
portal-resolution result of `sequence_execute`, and the notice that
`maybe_send_rbac_notice` would emit (`none` when RBAC is enabled). -/
structure InnerOracle where
  allocate_user_id : Except AdapterError Nat
  res : InnerCall → Except AdapterError ExecuteResponse
  sequence_execute : Except AdapterError String
  rbac_notice : Option AdapterNotice

/-- Embedding of the `Plan` variants matched by `sequence_plan`,
carrying exactly the payload data the dispatch arms inspect. -/
inductive Plan where
  | createSource | createSources | createConnection | createDatabase
  | createSchema | createRole | createCluster | createClusterProfile
  | createClusterReplica | createTable | createSecret | createSink
  | createView | createMaterializedView | createIndex | createType
  | dropObjects | dropOwned | emptyQuery | showAllVariables | showVariable
  | inspectShard | setVariable | resetVariable | setTransaction
  | startTransaction
  | commitTransaction (transaction_type_implicit : Bool)
  | abortTransaction (transaction_type_implicit : Bool)
  | selectPlan | subscribePlan | sideEffectingFunc
  | showCreate (row : Row)
  | showColumns | copyFrom | explainPlan | explainTimestamp
  | insertPlan | readThenWrite
  | alterNoop (object_type : Nat)
  | alterCluster | alterClusterProfile | alterClusterRename
  | alterClusterItemRename | alterSetCluster | alterItemRename
  | alterIndexSetOptions | alterIndexResetOptions | alterRole | alterSecret
  | alterSink | purifiedAlterSource | alterSource
  | alterSystemSet | alterSystemReset | alterSystemResetAll
  | discardTemp | discardAll
  | declarePlan (name : String)
  | fetch (name : String)
  | closePlan (name : String)
  | preparePlan (name : String) (stmt : Nat)
  | executePlan
  | deallocate (name : Option String)
  | raise (severity : Nat)
  | rotateKeys | grantPrivileges | revokePrivileges | alterDefaultPrivileges
  | grantRole | revokeRole | alterOwner | reassignOwned
  | validateConnection
deriving Repr

/-- Embedding of the `match plan` dispatch of
`Coordinator::sequence_plan`: a total mapping from plan kind to one
terminating action on the ExecuteContext — a direct retire, a direct
send, or a handoff whose continuation owns the context — except for
the two panicking paths (`Plan::AlterSource` is `unreachable!`, and
`Plan::CreateSources` asserts that its resolved ids are empty). -/
def dispatch (inner : InnerOracle) (s : Session) (p : Plan)
    (resolved_ids : List GlobalId) : SeqResult :=
  match p with
  | .createSource =>
    match inner.allocate_user_id with
    | .error e => retireWith s (.error e)
    | .ok _ => retireWith s (inner.res .createSource)
  | .createSources =>
    if resolved_ids.isEmpty then retireWith s (inner.res .createSource)
    else { SeqResult.base s with panicked := true }
  | .createConnection =>
    { SeqResult.base s with actions := [.handoff .createConnection] }
  | .createDatabase => retireWith s (inner.res .createDatabase)
  | .createSchema => retireWith s (inner.res .createSchema)
  | .createRole =>
    match inner.res .createRole with
    | .ok r =>
      { SeqResult.base s with
        actions := [.retire (.ok r)]
        notices := match inner.rbac_notice with | some n => [n] | none => [] }
    | .error e => retireWith s (.error e)
  | .createCluster => retireWith s (inner.res .createCluster)
  | .createClusterProfile => retireWith s (inner.res .createClusterProfile)
  | .createClusterReplica => retireWith s (inner.res .createClusterReplica)
  | .createTable => retireWith s (inner.res .createTable)
  | .createSecret => retireWith s (inner.res .createSecret)
  | .createSink => { SeqResult.base s with actions := [.handoff .createSink] }
  | .createView => retireWith s (inner.res .createView)
  | .createMaterializedView => retireWith s (inner.res .createMaterializedView)
  | .createIndex => retireWith s (inner.res .createIndex)
  | .createType => retireWith s (inner.res .createType)
  | .dropObjects => retireWith s (inner.res .dropObjects)
  | .dropOwned => retireWith s (inner.res .dropOwned)
  | .emptyQuery => retireWith s (.ok .emptyQuery)
  | .showAllVariables => retireWith s (inner.res .showAllVariables)
  | .showVariable => retireWith s (inner.res .showVariable)
  | .inspectShard => retireWith s (inner.res .inspectShard)
  | .setVariable => retireWith s (inner.res .setVariable)
  | .resetVariable => retireWith s (inner.res .resetVariable)
  | .setTransaction => retireWith s (inner.res .setTransaction)
  | .startTransaction =>
    { SeqResult.base (s.start_transaction).2 with
      notices :=
        if s.txn = .inTransaction then [.existingTransactionInProgress] else []
      actions :=
        [.retire ((s.start_transaction).1.map (fun _ => .startedTransaction))] }
  | .commitTransaction imp =>
    { SeqResult.base s with
      notices :=
        if s.txn.is_implicit && !imp then
          [.explicitTransactionControlInImplicitTransaction]
        else []
      actions := [.handoff (.endTransaction .commit)] }
  | .abortTransaction imp =>
    { SeqResult.base s with
      notices :=
        if s.txn.is_implicit && !imp then
          [.explicitTransactionControlInImplicitTransaction]
        else []
      actions := [.handoff (.endTransaction .rollback)] }
  | .selectPlan => { SeqResult.base s with actions := [.handoff .peek] }
  | .subscribePlan => retireWith s (inner.res .subscribePlan)
  | .sideEffectingFunc => retireWith s (inner.res .sideEffectingFunc)
  | .showCreate row => retireWith s (.ok (send_immediate_rows [row]))
  | .showColumns => { SeqResult.base s with actions := [.handoff .peek] }
  | .copyFrom => { SeqResult.base s with actions := [.send (.ok .copyFrom)] }
  | .explainPlan => { SeqResult.base s with actions := [.handoff .explainPlan] }
  | .explainTimestamp =>
    { SeqResult.base s with actions := [.handoff .explainTimestamp] }
  | .insertPlan => { SeqResult.base s with actions := [.handoff .insertPlan] }
  | .readThenWrite =>
    { SeqResult.base s with actions := [.handoff .readThenWrite] }
  | .alterNoop ty => retireWith s (.ok (.alteredObject ty))
  | .alterCluster => retireWith s (inner.res .alterCluster)
  | .alterClusterProfile => retireWith s (inner.res .alterClusterProfile)
  | .alterClusterRename => retireWith s (inner.res .alterClusterRename)
  | .alterClusterItemRename => retireWith s (inner.res .alterClusterReplicaRename)
  | .alterSetCluster => retireWith s (inner.res .alterSetCluster)
  | .alterItemRename => retireWith s (inner.res .alterItemRename)
  | .alterIndexSetOptions => retireWith s (inner.res .alterIndexSetOptions)
  | .alterIndexResetOptions => retireWith s (inner.res .alterIndexResetOptions)
  | .alterRole =>
    match inner.res .alterRole with
    | .ok r =>
      { SeqResult.base s with
        actions := [.retire (.ok r)]
        notices := match inner.rbac_notice with | some n => [n] | none => [] }
    | .error e => retireWith s (.error e)
  | .alterSecret => retireWith s (inner.res .alterSecret)
  | .alterSink => retireWith s (inner.res .alterSink)
  | .purifiedAlterSource => retireWith s (inner.res .alterSource)
  | .alterSource => { SeqResult.base s with panicked := true }
  | .alterSystemSet => retireWith s (inner.res .alterSystemSet)
  | .alterSystemReset => retireWith s (inner.res .alterSystemReset)
  | .alterSystemResetAll => retireWith s (inner.res .alterSystemResetAll)
  | .discardTemp =>
    { SeqResult.base s with
      effects := [.dropTempItems s.conn_id]
      actions := [.retire (.ok .discardedTemp)] }
  | .discardAll =>
    match s.txn with
    | .started =>
      { SeqResult.base ((s.clear_transaction).reset) with
        effects := [.dropTempItems s.conn_id]
        actions := [.retire (.ok .discardedAll)] }
    | _ => retireWith s (.error (.operationProhibitsTransaction "DISCARD ALL"))
  | .declarePlan name =>
    { SeqResult.base s with actions := [.handoff (.declarePlan name)] }
  | .fetch name => retireWith s (.ok (.fetch name))
  | .closePlan name =>
    if (s.remove_portal name).1 then
      { SeqResult.base (s.remove_portal name).2 with
        actions := [.retire (.ok .closedCursor)] }
    else retireWith s (.error (.unknownCursor name))
  | .preparePlan name stmt =>
    match s.get_prepared_statement_unverified name with
    | some _ => retireWith s (.error (.preparedStatementExists name))
    | none =>
      { SeqResult.base (s.set_prepared_statement name stmt) with
        actions := [.retire (.ok .preparedStatement)] }
  | .executePlan =>
    match inner.sequence_execute with
    | .ok portal =>
      { SeqResult.base s with actions := [.handoff (.executeMessage portal)] }
    | .error e => retireWith s (.error e)
  | .deallocate (some name) =>
    if (s.remove_prepared_statement name).1 then
      { SeqResult.base (s.remove_prepared_statement name).2 with
        actions := [.retire (.ok (.deallocate false))] }
    else retireWith s (.error (.unknownPreparedStatement name))
  | .deallocate none =>
    { SeqResult.base s.remove_all_prepared_statements with
      actions := [.retire (.ok (.deallocate true))] }
  | .raise sev =>
    { SeqResult.base s with
      notices := [.userRequested sev]
      actions := [.retire (.ok .raised)] }
  | .rotateKeys => retireWith s (inner.res .rotateKeys)
  | .grantPrivileges => retireWith s (inner.res .grantPrivileges)
  | .revokePrivileges => retireWith s (inner.res .revokePrivileges)
  | .alterDefaultPrivileges => retireWith s (inner.res .alterDefaultPrivileges)
  | .grantRole => retireWith s (inner.res .grantRole)
  | .revokeRole => retireWith s (inner.res .revokeRole)
  | .alterOwner => retireWith s (inner.res .alterOwner)
  | .reassignOwned => retireWith s (inner.res .reassignOwned)
  | .validateConnection =>
    { SeqResult.base s with actions := [.handoff .validateConnection] }

/-- Embedding of `Coordinator::sequence_plan`: fix the allowed
response set (not modelled), run the authorization gate — privilege
introspection override, cluster-restriction check, RBAC check — each
of which retires immediately on failure, then dispatch the plan. -/
def sequence_plan (a : Auth) (inner : InnerOracle) (s : Session) (p : Plan)
    (resolved_ids : List GlobalId) : SeqResult :=
  match a.user_privilege_hack with
  | some e => retireWith s (.error e)
  | none =>
    match a.check_cluster_restrictions with
    | some e => retireWith s (.error e)
    | none =>
      match a.check_plan with
      | some e => retireWith s (.error e)
      | none => dispatch inner s p resolved_ids

/-- The authorization oracle in which every check passes. -/
def authOk : Auth :=
  { user_privilege_hack := none, check_cluster_restrictions := none,
    check_plan := none }

/-- A default collaborator oracle for concrete instantiations. -/
def innerDefault : InnerOracle :=
  { allocate_user_id := .ok 0, res := fun _ => .ok (.other 0),
    sequence_execute := .ok "p", rbac_notice := none }

theorem sequence_plan_authOk (inner : InnerOracle) (s : Session) (p : Plan)
    (rids : List GlobalId) :
    sequence_plan authOk inner s p rids = dispatch inner s p rids := rfl

theorem dispatch_single_action (inner : InnerOracle) (s : Session) (p : Plan)
    (rids : List GlobalId) :
    ((dispatch inner s p rids).actions.length ≤ 1)
    ∧ ((dispatch inner s p rids).panicked = false →
        (dispatch inner s p rids).actions.length = 1) := by
  cases p <;> simp only [dispatch] <;> (repeat' split) <;>
    simp [retireWith, SeqResult.base]

/-- Claim C1: for every plan kind, one invocation of `sequence_plan`
delivers at most one terminal response to the originating
ExecuteContext — every control path performs at most one terminal
context action (a retire, a direct send, or a single transfer of the
context or its transmitter to a continuation), including the
authorization-failure and error paths; and on every path that does
not panic (`Plan::AlterSource` is `unreachable!` and
`Plan::CreateSources` asserts its resolved ids empty) it performs
exactly one. -/
theorem sequence_plan_at_most_one_retirement (a : Auth) (inner : InnerOracle)
    (s : Session) (p : Plan) (rids : List GlobalId) :
    ((sequence_plan a inner s p rids).actions.length ≤ 1)
    ∧ ((sequence_plan a inner s p rids).panicked = false →
        (sequence_plan a inner s p rids).actions.length = 1) := by
  unfold sequence_plan
  cases a.user_privilege_hack with
  | some e => simp [retireWith, SeqResult.base]
  | none =>
    cases a.check_cluster_restrictions with
    | some e => simp [retireWith, SeqResult.base]
    | none =>
      cases a.check_plan with
      | some e => simp [retireWith, SeqResult.base]
      | none => exact dispatch_single_action inner s p rids

theorem sequence_plan_at_most_one_retirement_witness :
    (sequence_plan authOk innerDefault sFresh .emptyQuery []).panicked = false
    ∧ (sequence_plan authOk innerDefault sFresh .emptyQuery []).actions.length = 1 :=
  ⟨rfl,
   (sequence_plan_at_most_one_retirement authOk innerDefault sFresh
     .emptyQuery []).2 rfl⟩

/-- A session inside a transaction that has executed no statements. -/
def sStartedTxn : Session := { sFresh with txn := .started }

/-- Claim C5 is false as stated: with the session in transaction state
`Started` — inside a transaction — dispatching `Plan::StartTransaction`
emits no notice at all, because the source guards the notice with
`matches!(.., TransactionStatus::InTransaction(_))`; the claim requires
exactly one notice in state `Started` as well. -/
theorem start_transaction_started_no_notice :
    sStartedTxn.txn = .started
    ∧ (sequence_plan authOk innerDefault sStartedTxn .startTransaction []).notices
        = []
    ∧ (sequence_plan authOk innerDefault sStartedTxn .startTransaction []).actions
        = [.retire (.ok .startedTransaction)] :=
  ⟨rfl, rfl, rfl⟩

/-- Claim C5 (amended): dispatching `Plan::StartTransaction` never
fails; it emits the "transaction already in progress" notice exactly
when the session state is `InTransaction` (and no notice in any other
state, `Started` included), proceeds to `start_transaction` reusing or
updating the active transaction, and retires exactly once with the
started-transaction success response. -/
theorem start_transaction_notice_iff_in_transaction (inner : InnerOracle)
    (s : Session) (rids : List GlobalId) :
    (sequence_plan authOk inner s .startTransaction rids).notices
      = (if s.txn = .inTransaction
          then [AdapterNotice.existingTransactionInProgress] else [])
    ∧ (sequence_plan authOk inner s .startTransaction rids).actions
      = [.retire (.ok .startedTransaction)]
    ∧ (sequence_plan authOk inner s .startTransaction rids).session
      = (s.start_transaction).2 := by
  have h1 : (s.start_transaction).1 = .ok () := by
    unfold Session.start_transaction
    cases s.txn <;> rfl
  refine ⟨rfl, ?_, rfl⟩
  show [CtxAction.retire ((s.start_transaction).1.map
    (fun _ => ExecuteResponse.startedTransaction))] = _
  rw [h1]
  rfl

/-- Claim C7: dispatching `Plan::DiscardAll` succeeds precisely when
the session transaction state is `Started`: on success it clears the
transaction, performs the drop-temporary-objects effect for the
connection, resets the session variables and retires once with
`DiscardedAll`; in every other transaction state it retires once with
an error naming "DISCARD ALL" as the prohibited operation, leaves the
session unchanged and performs no effect. -/
theorem discard_all_only_from_started (inner : InnerOracle) (s : Session)
    (rids : List GlobalId) :
    (s.txn = .started →
      sequence_plan authOk inner s .discardAll rids =
        { actions := [.retire (.ok .discardedAll)]
          notices := []
          effects := [.dropTempItems s.conn_id]
          session := (s.clear_transaction).reset
          panicked := false })
    ∧ (s.txn ≠ .started →
      sequence_plan authOk inner s .discardAll rids =
        { actions := [.retire (.error (.operationProhibitsTransaction "DISCARD ALL"))]
          notices := []
          effects := []
          session := s
          panicked := false })
    ∧ ((s.clear_transaction).reset).txn = .default
    ∧ ((s.clear_transaction).reset).vars = defaultVars := by
  refine ⟨?_, ?_, rfl, rfl⟩
  · intro h
    show dispatch inner s .discardAll rids = _
    simp only [dispatch]
    rw [h]
    rfl
  · intro h
    show dispatch inner s .discardAll rids = _
    simp only [dispatch]
    cases htxn : s.txn with
    | started => exact absurd htxn h
    | default => rfl
    | inTransactionImplicit => rfl
    | inTransaction => rfl
    | failed => rfl

theorem discard_all_only_from_started_witness :
    (sStartedTxn.txn = .started
      ∧ sequence_plan authOk innerDefault sStartedTxn .discardAll [] =
          { actions := [.retire (.ok .discardedAll)]
            notices := []
            effects := [.dropTempItems sStartedTxn.conn_id]
            session := (sStartedTxn.clear_transaction).reset
            panicked := false })
    ∧ (sFresh.txn ≠ .started
      ∧ sequence_plan authOk innerDefault sFresh .discardAll [] =
          { actions := [.retire (.error (.operationProhibitsTransaction "DISCARD ALL"))]
            notices := []
            effects := []
            session := sFresh
            panicked := false }) :=
  ⟨⟨rfl, (discard_all_only_from_started innerDefault sStartedTxn []).1 rfl⟩,
   ⟨by decide, (discard_all_only_from_started innerDefault sFresh []).2.1
      (by decide)⟩⟩

/-- Claim C8: the session-local cursor and prepared-statement protocol
errors are name-specific — `Prepare` fails with a name-collision error
exactly when the name is already registered, and otherwise registers
the statement and succeeds; `Close` on an unknown cursor fails with an
unknown-cursor error naming the cursor; `Deallocate` of an unknown
name fails with an unknown-prepared-statement error naming it; and
`Deallocate` of all removes every prepared statement unconditionally
and always succeeds. -/
theorem cursor_prepared_statement_protocol (inner : InnerOracle) (s : Session)
    (name : String) (stmt : Nat) (rids : List GlobalId) :
    ((s.get_prepared_statement_unverified name).isSome = true →
      sequence_plan authOk inner s (.preparePlan name stmt) rids =
        retireWith s (.error (.preparedStatementExists name)))
    ∧ ((s.get_prepared_statement_unverified name).isNone = true →
      sequence_plan authOk inner s (.preparePlan name stmt) rids =
        { SeqResult.base (s.set_prepared_statement name stmt) with
          actions := [.retire (.ok .preparedStatement)] })
    ∧ (s.portals.contains name = false →
      sequence_plan authOk inner s (.closePlan name) rids =
        retireWith s (.error (.unknownCursor name)))
    ∧ ((s.prepared.map Prod.fst).contains name = false →
      sequence_plan authOk inner s (.deallocate (some name)) rids =
        retireWith s (.error (.unknownPreparedStatement name)))
    ∧ (sequence_plan authOk inner s (.deallocate none) rids =
        { SeqResult.base s.remove_all_prepared_statements with
          actions := [.retire (.ok (.deallocate true))] })
    ∧ (s.remove_all_prepared_statements).prepared = [] := by
  refine ⟨?_, ?_, ?_, ?_, rfl, rfl⟩
  · intro h
    obtain ⟨v, hv⟩ := Option.isSome_iff_exists.mp h
    show dispatch inner s (.preparePlan name stmt) rids = _
    simp only [dispatch]
    rw [hv]
  · intro h
    have hv : s.get_prepared_statement_unverified name = none :=
      Option.isNone_iff_eq_none.mp h
    show dispatch inner s (.preparePlan name stmt) rids = _
    simp only [dispatch]
    rw [hv]
  · intro h
    show dispatch inner s (.closePlan name) rids = _
    simp only [dispatch, Session.remove_portal]
    rw [h]
    rfl
  · intro h
    show dispatch inner s (.deallocate (some name)) rids = _
    simp only [dispatch, Session.remove_prepared_statement]
    rw [h]
    rfl

/-- A session holding one prepared statement named "a". -/
def sPrep : Session := { sFresh with prepared := [("a", 1)] }

theorem cursor_prepared_statement_protocol_witness :
    ((sPrep.get_prepared_statement_unverified "a").isSome = true
      ∧ sequence_plan authOk innerDefault sPrep (.preparePlan "a" 2) [] =
          retireWith sPrep (.error (.preparedStatementExists "a")))
    ∧ ((sFresh.get_prepared_statement_unverified "a").isNone = true
      ∧ sequence_plan authOk innerDefault sFresh (.preparePlan "a" 2) [] =
          { SeqResult.base (sFresh.set_prepared_statement "a" 2) with
            actions := [.retire (.ok .preparedStatement)] })
    ∧ (sFresh.portals.contains "a" = false
      ∧ sequence_plan authOk innerDefault sFresh (.closePlan "a") [] =
          retireWith sFresh (.error (.unknownCursor "a")))
    ∧ ((sFresh.prepared.map Prod.fst).contains "a" = false
      ∧ sequence_plan authOk innerDefault sFresh (.deallocate (some "a")) [] =
          retireWith sFresh (.error (.unknownPreparedStatement "a"))) :=
  ⟨⟨rfl, (cursor_prepared_statement_protocol innerDefault sPrep "a" 2 []).1 rfl⟩,
   ⟨rfl, (cursor_prepared_statement_protocol innerDefault sFresh "a" 2 []).2.1 rfl⟩,
   ⟨rfl, (cursor_prepared_statement_protocol innerDefault sFresh "a" 2 []).2.2.1 rfl⟩,
   ⟨rfl, (cursor_prepared_statement_protocol innerDefault sFresh "a" 2 []).2.2.2.1 rfl⟩⟩

/-- The maximum value of the transient identifier counter
(`u64::MAX`). -/
def u64Max : Nat := 2 ^ 64 - 1

/-- Embedding of `Coordinator::allocate_transient_id`: the coordinator
state is the counter value; on success the current value becomes a
transient `GlobalId` and the counter advances by one; at `u64::MAX`
the call fails fatally (`coord_bail!`) instead of wrapping. -/
def allocate_transient_id (transient_id_counter : Nat) :
    Except AdapterError (GlobalId × Nat) :=
  if transient_id_counter = u64Max then
    .error (.internal "id counter overflows i64")
  else .ok (.transient transient_id_counter, transient_id_counter + 1)

/-- Claim C9: `allocate_transient_id` is strictly monotone and never
wraps — below the maximum it returns the current counter value as a
transient identifier and advances the counter by exactly one (strictly
increasing it); at the maximum it fails with a fatal overflow error,
and that is the only condition under which it fails. -/
theorem allocate_transient_id_monotone (c : Nat) :
    (c ≠ u64Max →
      allocate_transient_id c = .ok (.transient c, c + 1) ∧ c < c + 1)
    ∧ (c = u64Max →
      allocate_transient_id c = .error (.internal "id counter overflows i64"))
    ∧ ((∃ g c2, allocate_transient_id c = .ok (g, c2)) ↔ c ≠ u64Max) := by
  refine ⟨?_, ?_, ?_⟩
  · intro h
    exact ⟨by simp [allocate_transient_id, h], Nat.lt_succ_self c⟩
  · intro h
    simp [allocate_transient_id, h]
  · constructor
    · rintro ⟨g, c2, hok⟩ hmax
      simp [allocate_transient_id, hmax] at hok
    · intro h
      exact ⟨.transient c, c + 1, by simp [allocate_transient_id, h]⟩

theorem allocate_transient_id_monotone_witness :
    ((0 : Nat) ≠ u64Max
      ∧ allocate_transient_id 0 = .ok (.transient 0, 1))
    ∧ (u64Max = u64Max
      ∧ allocate_transient_id u64Max
          = .error (.internal "id counter overflows i64")) :=
  ⟨⟨by decide, ((allocate_transient_id_monotone 0).1 (by decide)).1⟩,
   ⟨rfl, (allocate_transient_id_monotone u64Max).2.1 rfl⟩⟩

/-- Oracle for the single-statement implicit transaction protocol: the
inner statement's response arriving on the temporary channel and the
synthetic commit's response; `none` models the coordinator having gone
away, upon which the waiting continuation abandons silently. -/
structure SingleStmtOracle where
  stmt_response : Option (Except AdapterError ExecuteResponse)
  commit_response : Option (Except AdapterError ExecuteResponse)

/-- Embedding of the result-forwarding task of
`Coordinator::sequence_execute_single_statement_transaction`: await
the inner statement's response on the temporary channel, issue the
synthetic commit against the real session, await the commit's
response, and send to the client the commit's result when the
statement succeeded and the statement's own error when it failed;
abandon with no response (`none`) when the coordinator goes away. -/
def single_statement_transaction_result (o : SingleStmtOracle) :
    Option (Except AdapterError ExecuteResponse) :=
  match o.stmt_response with
  | none => none
  | some result =>
    match o.commit_response with
    | none => none
    | some commit =>
      some (match result with
        | .ok _ => commit
        | .error e => .error e)

/-- Claim C3: in the single-statement implicit transaction protocol
the result forwarded to the client is selected as follows — if the
inner statement returned an error, that error is forwarded unchanged
and no commit outcome is surfaced; if the inner statement succeeded,
its success payload is discarded and the synthetic commit's result
(success or failure) is what the client receives. -/
theorem single_statement_forwards_commit_result (o : SingleStmtOracle)
    (commit : Except AdapterError ExecuteResponse) :
    (∀ e : AdapterError, o.stmt_response = some (.error e) →
      o.commit_response = some commit →
      single_statement_transaction_result o = some (.error e))
    ∧ (∀ r : ExecuteResponse, o.stmt_response = some (.ok r) →
      o.commit_response = some commit →
      single_statement_transaction_result o = some commit) := by
  constructor
  · intro e hs hc
    simp [single_statement_transaction_result, hs, hc]
  · intro r hs hc
    simp [single_statement_transaction_result, hs, hc]

theorem single_statement_forwards_commit_result_witness :
    (single_statement_transaction_result
        { stmt_response := some (.error (.other 7)),
          commit_response := some (.ok (.other 3)) }
      = some (.error (.other 7)))
    ∧ (single_statement_transaction_result
        { stmt_response := some (.ok (.other 5)),
          commit_response := some (.error (.other 9)) }
      = some (.error (.other 9))) :=
  ⟨(single_statement_forwards_commit_result
      { stmt_response := some (.error (.other 7)),
        commit_response := some (.ok (.other 3)) }
      (.ok (.other 3))).1 (.other 7) rfl rfl,
   (single_statement_forwards_commit_result
      { stmt_response := some (.ok (.other 5)),
        commit_response := some (.error (.other 9)) }
      (.error (.other 9))).2 (.other 5) rfl rfl⟩

/-- Modelled from the spec: one column of a relation description — its
name and whether it admits null values. -/
structure ColumnDesc where
  name : String
  nullable : Bool
deriving DecidableEq, Repr

/-- Modelled from the spec: the target relation's description, i.e.
its columns with their constraints. -/
structure RelationDesc where
  columns : List ColumnDesc
deriving DecidableEq, Repr

/-- Modelled from the spec: `RelationDesc::constraints_met` validates
one datum against the constraints of column `i`; a null datum in a
non-nullable column is a constraint violation naming the column. -/
def RelationDesc.constraints_met (desc : RelationDesc) (i : Nat) (d : Datum) :
    Except AdapterError Unit :=
  match desc.columns.get? i with
  | some col =>
    if d = Datum.null ∧ col.nullable = false then
      .error (.notNullViolation col.name)
    else .ok ()
  | none => .ok ()

/-- A catalog entry as `insert_constant` sees it: its `desc(..)`
accessor either yields the relation description or reports an error. -/
structure CatalogEntry where
  desc : Except AdapterError RelationDesc

/-- Modelled from the spec: the slice of the catalog that
`insert_constant` consults — entry lookup by identifier and the
configured maximum result size. -/
structure Catalog where
  entries : List (GlobalId × CatalogEntry)
  max_result_size : Nat

/-- Embedding of `Catalog::try_get_entry`. -/
def Catalog.try_get_entry (c : Catalog) (id : GlobalId) : Option CatalogEntry :=
  (c.entries.find? (fun p => p.1 == id)).map Prod.snd

/-- The `MirRelationExpr` shapes `insert_constant` distinguishes: a
constant collection (whose row evaluation may itself have failed) or
any other expression, on which the source panics. -/
inductive MirRelationExpr where
  | constant (rows : Except AdapterError (List (Row × Int))) : MirRelationExpr
  | nonConstant : MirRelationExpr

/-- The inner validation loop of `insert_constant`: check the datums
of one row against the column constraints in column order, starting at
column index `i`. -/
def checkDatums (desc : RelationDesc) (i : Nat) : List Datum → Except AdapterError Unit
  | [] => .ok ()
  | d :: ds =>
    match desc.constraints_met i d with
    | .error e => .error e
    | .ok () => checkDatums desc (i + 1) ds

/-- The outer validation loop of `insert_constant`: check every row of
the constant collection, in order. -/
def checkRows (desc : RelationDesc) : List (Row × Int) → Except AdapterError Unit
  | [] => .ok ()
  | (r, _) :: rest =>
    match checkDatums desc 0 r with
    | .error e => .error e
    | .ok () => checkRows desc rest

/-- The outcome of `insert_constant`: a panic (for a non-constant
expression) or a result together with the resulting session. -/
inductive InsertConstantOutcome where
  | panicked : InsertConstantOutcome
  | result (r : Except AdapterError ExecuteResponse) (s : Session) :
      InsertConstantOutcome

/-- Embedding of `Coordinator::insert_constant`: re-verify that the
target id exists in the catalog, obtain the relation description,
demand a constant expression (panicking otherwise), propagate a
row-evaluation error, validate every datum of every row against the
column constraints, and only then build a `SendDiffsPlan` and call
`send_diffs`. -/
def insert_constant (catalog : Catalog) (s : Session) (id : GlobalId)
    (constants : MirRelationExpr) : InsertConstantOutcome :=
  match catalog.try_get_entry id with
  | none => .result (.error (.sqlCatalogUnknownItem id)) s
  | some entry =>
    match entry.desc with
    | .error e => .result (.error e) s
    | .ok desc =>
      match constants with
      | .nonConstant => .panicked
      | .constant rowsResult =>
        match rowsResult with
        | .error e => .result (.error e) s
        | .ok rows =>
          match checkRows desc rows with
          | .error e => .result (.error e) s
          | .ok () =>
            match send_diffs s
                { id := id, updates := rows, kind := .insert, returning := [],
                  max_result_size := catalog.max_result_size } with
            | (r, s2) => .result r s2

/-- Row `r` holds a null datum in a non-nullable column `i` of
`desc`. -/
def violatesAt (desc : RelationDesc) (r : Row) (i : Nat) : Prop :=
  r.get? i = some .null
  ∧ ∃ col, desc.columns.get? i = some col ∧ col.nullable = false

theorem constraints_met_error_char (desc : RelationDesc) (i : Nat) (d : Datum)
    (e : AdapterError) (h : desc.constraints_met i d = .error e) :
    ∃ col, desc.columns.get? i = some col ∧ col.nullable = false
      ∧ d = Datum.null ∧ e = .notNullViolation col.name := by
  unfold RelationDesc.constraints_met at h
  cases hcol : desc.columns.get? i with
  | none => rw [hcol] at h; simp at h
  | some col =>
    rw [hcol] at h
    dsimp only at h
    by_cases hd : d = Datum.null ∧ col.nullable = false
    · rw [if_pos hd] at h
      exact ⟨col, rfl, hd.2, hd.1, ((Except.error.injEq _ _).mp h).symm⟩
    · rw [if_neg hd] at h
      exact absurd h (by simp)

theorem constraints_met_of_violation (desc : RelationDesc) (i : Nat)
    (col : ColumnDesc) (hcol : desc.columns.get? i = some col)
    (hnn : col.nullable = false) :
    desc.constraints_met i Datum.null = .error (.notNullViolation col.name) := by
  unfold RelationDesc.constraints_met
  rw [hcol]
  dsimp only
  rw [if_pos ⟨rfl, hnn⟩]

theorem checkDatums_ok_char (desc : RelationDesc) (ds : List Datum) :
    ∀ i, checkDatums desc i ds = .ok () →
      ∀ j d, ds.get? j = some d → desc.constraints_met (i + j) d = .ok () := by
  induction ds with
  | nil => intro i _ j d hj; simp at hj
  | cons d0 rest ih =>
    intro i h j d hj
    unfold checkDatums at h
    cases hc : desc.constraints_met i d0 with
    | error e => rw [hc] at h; exact absurd h (by simp)
    | ok u =>
      cases u
      rw [hc] at h
      cases j with
      | zero =>
        simp only [List.get?_cons_zero] at hj
        cases hj
        simpa using hc
      | succ j2 =>
        simp only [List.get?_cons_succ] at hj
        have := ih (i + 1) h j2 d hj
        have harith : i + 1 + j2 = i + (j2 + 1) := by omega
        rw [harith] at this
        exact this

theorem checkDatums_error_char (desc : RelationDesc) (ds : List Datum) :
    ∀ i e, checkDatums desc i ds = .error e →
      ∃ j d, ds.get? j = some d ∧ desc.constraints_met (i + j) d = .error e := by
  induction ds with
  | nil => intro i e h; exact absurd h (by simp [checkDatums])
  | cons d0 rest ih =>
    intro i e h
    unfold checkDatums at h
    cases hc : desc.constraints_met i d0 with
    | error e2 =>
      rw [hc] at h
      refine ⟨0, d0, rfl, ?_⟩
      rw [Nat.add_zero]
      rw [hc, (Except.error.injEq _ _).mp h]
    | ok u =>
      cases u
      rw [hc] at h
      obtain ⟨j2, d, hj, hcm⟩ := ih (i + 1) e h
      refine ⟨j2 + 1, d, by simpa using hj, ?_⟩
      have harith : i + (j2 + 1) = i + 1 + j2 := by omega
      rw [harith]
      exact hcm

theorem checkRows_ok_char (desc : RelationDesc) (rows : List (Row × Int))
    (h : checkRows desc rows = .ok ()) :
    ∀ p ∈ rows, checkDatums desc 0 p.1 = .ok () := by
  induction rows with
  | nil => intro p hp; simp at hp
  | cons q rest ih =>
    intro p hp
    obtain ⟨r, m⟩ := q
    unfold checkRows at h
    cases hc : checkDatums desc 0 r with
    | error e => rw [hc] at h; exact absurd h (by simp)
    | ok u =>
      cases u
      rw [hc] at h
      rcases List.mem_cons.mp hp with h1 | h1
      · subst h1; exact hc
      · exact ih h p h1

theorem checkRows_error_char (desc : RelationDesc) (rows : List (Row × Int))
    (e : AdapterError) (h : checkRows desc rows = .error e) :
    ∃ p ∈ rows, checkDatums desc 0 p.1 = .error e := by
  induction rows with
  | nil => exact absurd h (by simp [checkRows])
  | cons q rest ih =>
    obtain ⟨r, m⟩ := q
    unfold checkRows at h
    cases hc : checkDatums desc 0 r with
    | error e2 =>
      rw [hc] at h
      exact ⟨(r, m), by simp, by rw [hc, (Except.error.injEq _ _).mp h]⟩
    | ok u =>
      cases u
      rw [hc] at h
      obtain ⟨p, hp, hcd⟩ := ih h
      exact ⟨p, by simp [hp], hcd⟩

/-- Claim C6: in `insert_constant`, every row of the constant insert
is validated against the target relation's column constraints before
any write is buffered — if some row holds a null datum in a
non-nullable column, the whole statement fails with a
constraint-violation error naming a violated column of an offending
row, and the session (in particular its buffered transaction ops) is
returned unchanged, so no WriteOp from the statement is added. -/
theorem insert_constant_checks_constraints (catalog : Catalog) (s : Session)
    (id : GlobalId) (entry : CatalogEntry) (desc : RelationDesc)
    (rows : List (Row × Int))
    (hentry : catalog.try_get_entry id = some entry)
    (hdesc : entry.desc = .ok desc)
    (hviol : ∃ p ∈ rows, ∃ i, violatesAt desc p.1 i) :
    ∃ colName,
      insert_constant catalog s id (.constant (.ok rows))
        = .result (.error (.notNullViolation colName)) s
      ∧ (∃ p ∈ rows, ∃ i col, p.1.get? i = some Datum.null
          ∧ desc.columns.get? i = some col ∧ col.nullable = false
          ∧ col.name = colName) := by
  have hnotok : checkRows desc rows ≠ .ok () := by
    intro hok
    obtain ⟨p, hp, i, hviol2⟩ := hviol
    obtain ⟨hnull, col, hcol, hnn⟩ := hviol2
    have h1 := checkRows_ok_char desc rows hok p hp
    have h2 := checkDatums_ok_char desc p.1 0 h1 i Datum.null hnull
    rw [Nat.zero_add] at h2
    rw [constraints_met_of_violation desc i col hcol hnn] at h2
    exact absurd h2 (by simp)
  cases hcheck : checkRows desc rows with
  | ok u => cases u; exact absurd hcheck hnotok
  | error e =>
    obtain ⟨p, hp, hcd⟩ := checkRows_error_char desc rows e hcheck
    obtain ⟨j, d, hj, hcm⟩ := checkDatums_error_char desc p.1 0 e hcd
    rw [Nat.zero_add] at hcm
    obtain ⟨col, hcol, hnn, hnulld, herr⟩ :=
      constraints_met_error_char desc j d e hcm
    refine ⟨col.name, ?_, p, hp, j, col, by rw [← hnulld]; exact hj, hcol, hnn, rfl⟩
    unfold insert_constant
    rw [hentry]
    dsimp only
    rw [hdesc]
    dsimp only
    rw [hcheck]
    dsimp only
    rw [herr]

/-- A relation description with one non-nullable column named "k". -/
def descC6 : RelationDesc := { columns := [{ name := "k", nullable := false }] }

/-- A catalog holding one table with description `descC6`. -/
def catalogC6 : Catalog :=
  { entries := [(.user 1, { desc := .ok descC6 })], max_result_size := 100 }

/-- A constant insert whose single row is null in column 0. -/
def rowsC6 : List (Row × Int) := [([Datum.null], 1)]

theorem insert_constant_checks_constraints_witness :
    ∃ colName,
      insert_constant catalogC6 sFresh (.user 1) (.constant (.ok rowsC6))
        = .result (.error (.notNullViolation colName)) sFresh
      ∧ (∃ p ∈ rowsC6, ∃ i col, p.1.get? i = some Datum.null
          ∧ descC6.columns.get? i = some col ∧ col.nullable = false
          ∧ col.name = colName) :=
  insert_constant_checks_constraints catalogC6 sFresh (.user 1)
    { desc := .ok descC6 } descC6 rowsC6 rfl rfl
    ⟨([Datum.null], 1), by decide, 0, rfl,
      { name := "k", nullable := false }, rfl, rfl⟩
